import Mathlib

/-!
Verification of the prediction-trading-framework execution core.

This file gives a shallow Lean embedding of the Python source under `src/`
(Kalshi signed client, execution engine, in-process buses, observability
recorder) and proves the frozen specification claims about it.

Python dictionaries are modelled as association lists with Python's
insertion-order semantics: assigning to an existing key replaces the value
in place, assigning to a fresh key appends at the end, `pop` removes the
entry.  Python `float` quantities are modelled as rationals, wall-clock
instants as naturals, and raised exceptions as `Except` error values.
-/

namespace PTF

/-! ### Python `dict` model -/

/-- Lookup in a Python dict (first binding of the key). -/
def dictLookup {α : Type} : List (String × α) → String → Option α
  | [], _ => none
  | (k, v) :: rest, key => if k = key then some v else dictLookup rest key

/-- `d[key] = v`: replace in place when the key exists, else append. -/
def dictInsert {α : Type} : List (String × α) → String → α → List (String × α)
  | [], key, v => [(key, v)]
  | (k, w) :: rest, key, v =>
    if k = key then (k, v) :: rest else (k, w) :: dictInsert rest key v

/-- `d.pop(key, None)`: drop the binding of the key when present. -/
def dictErase {α : Type} : List (String × α) → String → List (String × α)
  | [], _ => []
  | (k, w) :: rest, key => if k = key then rest else (k, w) :: dictErase rest key

theorem dictLookup_dictInsert_self {α : Type} (d : List (String × α)) (k : String) (v : α) :
    dictLookup (dictInsert d k v) k = some v := by
  induction d with
  | nil => simp [dictInsert, dictLookup]
  | cons hd tl ih =>
    obtain ⟨k', v'⟩ := hd
    by_cases h : k' = k <;> simp [dictInsert, dictLookup, h, ih]

theorem dictLookup_dictInsert_ne {α : Type} (d : List (String × α)) (k k' : String) (v : α)
    (h : k' ≠ k) : dictLookup (dictInsert d k v) k' = dictLookup d k' := by
  have h' : k ≠ k' := Ne.symm h
  induction d with
  | nil => simp [dictInsert, dictLookup, h']
  | cons hd tl ih =>
    obtain ⟨k₀, v₀⟩ := hd
    by_cases h₀ : k₀ = k
    · subst h₀
      simp [dictInsert, dictLookup, h']
    · simp only [dictInsert, if_neg h₀]
      by_cases h₁ : k₀ = k' <;> simp [dictLookup, h₁, ih]

theorem dictLookup_dictErase_ne {α : Type} (d : List (String × α)) (k k' : String)
    (h : k' ≠ k) : dictLookup (dictErase d k) k' = dictLookup d k' := by
  have h' : k ≠ k' := Ne.symm h
  induction d with
  | nil => simp [dictErase]
  | cons hd tl ih =>
    obtain ⟨k₀, v₀⟩ := hd
    by_cases h₀ : k₀ = k
    · subst h₀
      simp [dictErase, dictLookup, h']
    · by_cases h₁ : k₀ = k' <;> simp [dictErase, dictLookup, h₀, h₁, h, ih]

theorem dictLookup_dictErase_self {α : Type} (d : List (String × α)) (k : String)
    (hnd : (d.map Prod.fst).Nodup) : dictLookup (dictErase d k) k = none := by
  induction d with
  | nil => simp [dictErase, dictLookup]
  | cons hd tl ih =>
    obtain ⟨k₀, v₀⟩ := hd
    simp only [List.map_cons, List.nodup_cons] at hnd
    by_cases h₀ : k₀ = k
    · subst h₀
      cases hlk : dictLookup tl k₀ with
      | none => simpa [dictErase] using hlk
      | some v =>
        exfalso
        apply hnd.1
        clear ih hnd
        induction tl with
        | nil => simp [dictLookup] at hlk
        | cons hd' tl' ih' =>
          obtain ⟨k₁, v₁⟩ := hd'
          by_cases h₁ : k₁ = k₀
          · subst h₁; simp
          · simp only [dictLookup, if_neg h₁] at hlk
            simpa using Or.inr (ih' hlk)
    · simp [dictErase, dictLookup, h₀, ih hnd.2]

/-- Membership in the key list is unchanged by in-place replacement. -/
theorem map_fst_dictInsert_of_isSome {α : Type} (d : List (String × α)) (k : String) (v : α)
    (h : (dictLookup d k).isSome) :
    (dictInsert d k v).map Prod.fst = d.map Prod.fst := by
  induction d with
  | nil => simp [dictLookup] at h
  | cons hd tl ih =>
    obtain ⟨k₀, v₀⟩ := hd
    by_cases h₀ : k₀ = k
    · simp [dictInsert, h₀]
    · simp only [dictLookup, if_neg h₀] at h
      simp [dictInsert, h₀, ih h]

/-! ### Execution-engine data model (`src/trading/models.py`) -/

/-- `OrderRequest`: a venue-agnostic order intent (timestamps elided). -/
structure OrderRequest where
  trade_id : String
  venue : String
  ticker : String
  side : String
  action : String
  count : Int
  order_type : String
  limit_price_dollars : Option ℚ := none
  client_order_id : Option String := none
deriving DecidableEq, Repr

/-- `ExecutionEvent`: the normalized lifecycle events published on the event
bus (wall-clock `ts` fields elided). -/
inductive ExecEvent where
  | orderSubmitted (trade_id venue venue_order_id : String) (request : OrderRequest)
  | orderRejected (trade_id venue : String) (request : OrderRequest) (message : String)
  | orderCanceled (venue venue_order_id : String) (reason : Option String)
  | orderUpdate (venue venue_order_id status : String) (fill_count : Int)
  | fillUpdate (venue venue_order_id : String) (filled_delta filled_total : Int)
  | executionError (venue venue_order_id : Option String) (message : String) (retryable : Bool)
deriving DecidableEq, Repr

/-- One entry of the engine's tracked-order map `{status, fill_count}`. -/
structure TrackedRec where
  status : String
  fill_count : Int
deriving DecidableEq, Repr

/-- The engine's `venue_order_id -> {status, fill_count}` map. -/
abbrev Tracked := List (String × TrackedRec)

/-! ### Engine command handlers (`src/trading/execution/engine.py`) -/

/-- `ExecutionEngine._handle_submit`: the adapter call's outcome is passed in
as `result` (`Except msg vid` models `place_order` raising / returning). -/
def handleSubmit (tracked : Tracked) (request : OrderRequest)
    (result : Except String String) : Tracked × List ExecEvent :=
  match result with
  | .error msg =>
    (tracked, [ExecEvent.orderRejected request.trade_id request.venue request msg])
  | .ok venue_order_id =>
    (dictInsert tracked venue_order_id ⟨"submitted", 0⟩,
     [ExecEvent.orderSubmitted request.trade_id request.venue venue_order_id request])

/-- `ExecutionEngine._handle_cancel`: `result` models `adapter.cancel_order`
raising (`error msg`) or returning (`ok`). -/
def handleCancel (tracked : Tracked) (venue_order_id : String) (reason : Option String)
    (result : Except String Unit) : Tracked × List ExecEvent :=
  match result with
  | .error msg =>
    (tracked,
     [ExecEvent.executionError none (some venue_order_id) ("cancel_order failed: " ++ msg) true])
  | .ok _ =>
    (tracked, [ExecEvent.orderCanceled "kalshi" venue_order_id reason])

/-- One iteration of the body of `ExecutionEngine._poll_orders_loop` for a
single tracked `venue_order_id`; `fetch` models `adapter.get_order_status`
raising or returning `(status, fill_count)`. -/
def pollOne (tracked : Tracked) (venue_order_id : String)
    (fetch : Except String (String × Int)) : Tracked × List ExecEvent :=
  match fetch with
  | .error msg =>
    (tracked,
     [ExecEvent.executionError none (some venue_order_id)
        ("get_order_status failed: " ++ msg) true])
  | .ok (status, fill_count) =>
    match dictLookup tracked venue_order_id with
    | none => (tracked, [])
    | some rec =>
      let prev_status := rec.status
      let prev_fill := rec.fill_count
      if status = prev_status ∧ fill_count = prev_fill then
        (tracked, [])
      else
        let tracked1 := dictInsert tracked venue_order_id ⟨status, fill_count⟩
        let events :=
          [ExecEvent.orderUpdate "kalshi" venue_order_id status fill_count] ++
            (if prev_fill < fill_count then
              [ExecEvent.fillUpdate "kalshi" venue_order_id (fill_count - prev_fill) fill_count]
            else [])
        let tracked2 :=
          if status = "executed" ∨ status = "canceled" then dictErase tracked1 venue_order_id
          else tracked1
        (tracked2, events)

/-- C9: submission failure is atomic: on an adapter error the engine publishes
`OrderRejected` and leaves the tracked map exactly as it was; the
`{status: "submitted", fill_count: 0}` entry is inserted only on success. -/
theorem handleSubmit_atomic (tracked : Tracked) (request : OrderRequest)
    (msg venue_order_id : String) :
    handleSubmit tracked request (.error msg)
      = (tracked, [ExecEvent.orderRejected request.trade_id request.venue request msg])
    ∧ (handleSubmit tracked request (.error msg)).1 = tracked
    ∧ handleSubmit tracked request (.ok venue_order_id)
      = (dictInsert tracked venue_order_id ⟨"submitted", 0⟩,
         [ExecEvent.orderSubmitted request.trade_id request.venue venue_order_id request])
    ∧ dictLookup (handleSubmit tracked request (.ok venue_order_id)).1 venue_order_id
      = some ⟨"submitted", 0⟩ := by
  refine ⟨rfl, rfl, rfl, ?_⟩
  exact dictLookup_dictInsert_self tracked venue_order_id ⟨"submitted", 0⟩

/-- C6: on `CancelOrder`, an adapter failure yields a retryable
`ExecutionError` carrying the venue order id and no `OrderCanceled`; success
yields `OrderCanceled` with that id and reason; the tracked map is unchanged
in both branches. -/
theorem handleCancel_spec (tracked : Tracked) (venue_order_id : String)
    (reason : Option String) (msg : String) :
    handleCancel tracked venue_order_id reason (.error msg)
      = (tracked,
         [ExecEvent.executionError none (some venue_order_id)
            ("cancel_order failed: " ++ msg) true])
    ∧ (∀ v vid r, ExecEvent.orderCanceled v vid r
        ∉ (handleCancel tracked venue_order_id reason (.error msg)).2)
    ∧ handleCancel tracked venue_order_id reason (.ok ())
      = (tracked, [ExecEvent.orderCanceled "kalshi" venue_order_id reason])
    ∧ (handleCancel tracked venue_order_id reason (.error msg)).1 = tracked
    ∧ (handleCancel tracked venue_order_id reason (.ok ())).1 = tracked := by
  refine ⟨rfl, ?_, rfl, rfl, rfl⟩
  intro v vid r
  simp [handleCancel]

/-- C3: on a poll tick, for a tracked order whose fetch succeeds: when nothing
changed, no event is published and the map is unchanged; when either field
changed, an `OrderUpdate` with the new status and fill count is published,
followed (iff the fill count increased) by a `FillUpdate` with
`filled_delta = new - prev` and `filled_total = new`; the tracked record is
overwritten, and removed afterwards exactly when the new status is terminal. -/
theorem pollOrders_tick (tracked : Tracked) (vid ps status : String) (pf fc : Int)
    (hlk : dictLookup tracked vid = some ⟨ps, pf⟩)
    (hnd : (tracked.map Prod.fst).Nodup) :
    (status = ps ∧ fc = pf → pollOne tracked vid (.ok (status, fc)) = (tracked, []))
    ∧ (¬(status = ps ∧ fc = pf) →
        (pollOne tracked vid (.ok (status, fc))).2
          = [ExecEvent.orderUpdate "kalshi" vid status fc] ++
              (if pf < fc then [ExecEvent.fillUpdate "kalshi" vid (fc - pf) fc] else [])
        ∧ dictLookup (pollOne tracked vid (.ok (status, fc))).1 vid
          = (if status = "executed" ∨ status = "canceled" then none
             else some ⟨status, fc⟩)) := by
  constructor
  · intro hsame
    simp [pollOne, hlk, hsame.1, hsame.2]
  · intro hch
    have hinsns : (dictLookup (dictInsert tracked vid ⟨status, fc⟩) vid) = some ⟨status, fc⟩ :=
      dictLookup_dictInsert_self tracked vid ⟨status, fc⟩
    have hndins : ((dictInsert tracked vid ⟨status, fc⟩).map Prod.fst).Nodup := by
      rw [map_fst_dictInsert_of_isSome tracked vid ⟨status, fc⟩ (by simp [hlk])]
      exact hnd
    constructor
    · simp [pollOne, hlk, hch]
    · by_cases hterm : status = "executed" ∨ status = "canceled"
      · simp only [pollOne, hlk, if_neg hch, if_pos hterm]
        exact dictLookup_dictErase_self _ vid hndins
      · simp only [pollOne, hlk, if_neg hch, if_neg hterm]
        exact hinsns

/-- Witness for `pollOrders_tick` at a concrete fill-increasing tick. -/
theorem pollOrders_tick_witness :
    (pollOne [("V1", TrackedRec.mk "resting" 0)] "V1" (.ok ("resting", 1))).2
      = [ExecEvent.orderUpdate "kalshi" "V1" "resting" 1,
         ExecEvent.fillUpdate "kalshi" "V1" 1 1]
    ∧ dictLookup (pollOne [("V1", TrackedRec.mk "resting" 0)] "V1"
        (.ok ("resting", 1))).1 "V1" = some ⟨"resting", 1⟩ := by
  have h := pollOrders_tick [("V1", ⟨"resting", 0⟩)] "V1" "resting" "resting" 0 1
    rfl (by decide)
  have h2 := h.2 (by decide)
  refine ⟨?_, ?_⟩
  · rw [h2.1]; decide
  · rw [h2.2]; decide

/-! ### Signed request construction (`src/kalshi/client.py`) -/

/-- Python `str.upper()` (modelled on basic-latin letters, as used for HTTP
method names). -/
def pyUpper (s : String) : String := ⟨s.data.map Char.toUpper⟩

/-- `path.split("?", 1)[0]`: the prefix of the path before the first `'?'`. -/
def pathWithoutQuery (path : String) : String :=
  ⟨path.data.takeWhile (fun c => c ≠ '?')⟩

/-- `KalshiClient._sign_request`'s message
`f"{timestamp_ms}{method_upper}{path_without_query}"`. -/
def signMessage (timestamp_ms : Nat) (method path : String) : String :=
  Nat.repr timestamp_ms ++ pyUpper method ++ pathWithoutQuery path

/-- The authentication-relevant parts of the request that
`KalshiClient._send_request` assembles: the signed message, the
`KALSHI-ACCESS-TIMESTAMP` header value, and the outbound URL. -/
structure PreparedRequest where
  message : String
  timestampHeader : String
  url : String
deriving DecidableEq, Repr

/-- `KalshiClient._send_request`: signs with `_sign_request` (whose timestamp
is passed in here), puts the same timestamp in the header, and sends to
`self.base_url + path`. -/
def prepareRequest (base_url : String) (timestamp_ms : Nat) (method path : String) :
    PreparedRequest :=
  { message := signMessage timestamp_ms method path
    timestampHeader := Nat.repr timestamp_ms
    url := base_url ++ path }

theorem digitChar_ne_qmark (m : Nat) : Nat.digitChar m ≠ '?' := by
  rcases lt_or_ge m 16 with h | h
  · interval_cases m <;> decide
  · unfold Nat.digitChar
    repeat rw [if_neg (by omega)]
    decide

theorem mem_toDigitsCore (b : Nat) :
    ∀ (fuel n : Nat) (acc : List Char) (c : Char),
      c ∈ Nat.toDigitsCore b fuel n acc → c ∈ acc ∨ ∃ m, c = Nat.digitChar m := by
  intro fuel
  induction fuel with
  | zero => intro n acc c hc; exact Or.inl hc
  | succ fuel ih =>
    intro n acc c hc
    unfold Nat.toDigitsCore at hc
    by_cases h : n / b = 0
    · rw [if_pos h] at hc
      rcases List.mem_cons.mp hc with h1 | h1
      · exact Or.inr ⟨n % b, h1⟩
      · exact Or.inl h1
    · rw [if_neg h] at hc
      rcases ih (n / b) (Nat.digitChar (n % b) :: acc) c hc with h1 | h1
      · rcases List.mem_cons.mp h1 with h2 | h2
        · exact Or.inr ⟨n % b, h2⟩
        · exact Or.inl h2
      · exact Or.inr h1

theorem repr_no_qmark (n : Nat) : '?' ∉ (Nat.repr n).data := by
  intro hc
  have hc' : '?' ∈ Nat.toDigitsCore 10 (n + 1) n [] := hc
  rcases mem_toDigitsCore 10 (n + 1) n [] '?' hc' with h | ⟨m, hm⟩
  · simp at h
  · exact digitChar_ne_qmark m hm.symm

theorem ofNat_shift_ne_qmark (n : Nat) (h1 : 97 ≤ n) (h2 : n ≤ 122) :
    Char.ofNat (n - 32) ≠ '?' := by
  interval_cases n <;> decide

theorem toUpper_ne_qmark (c : Char) (hc : c ≠ '?') : Char.toUpper c ≠ '?' := by
  show (if c.toNat ≥ 97 ∧ c.toNat ≤ 122 then Char.ofNat (c.toNat - 32) else c) ≠ '?'
  split
  · next h => exact ofNat_shift_ne_qmark c.toNat h.1 h.2
  · exact hc

/-- C1 (amended): for every base URL, timestamp, path, and method containing
no `'?'`: the signed message is exactly `timestamp ++ upper(method) ++
path-before-first-'?'`; `'?'` does not occur in the signed bytes; the
`KALSHI-ACCESS-TIMESTAMP` header is the timestamp embedded at the start of
the message; the truncated path is the prefix of `path` up to (excluding)
the first `'?'`; and the outbound URL keeps the full path with its query
string.  Concretely, timestamp `1700000000000`, method `"get"`, path
`"/a/b?x=1"` sign `"1700000000000GET/a/b"` while the URL retains `?x=1`. -/
theorem kalshi_signing (base_url method path : String) (ts : Nat)
    (hm : '?' ∉ method.data) :
    (prepareRequest base_url ts method path).message
      = Nat.repr ts ++ pyUpper method ++ pathWithoutQuery path
    ∧ (prepareRequest base_url ts method path).timestampHeader
        ++ pyUpper method ++ pathWithoutQuery path
      = (prepareRequest base_url ts method path).message
    ∧ '?' ∉ ((prepareRequest base_url ts method path).message).data
    ∧ (pathWithoutQuery path).data
        ++ path.data.dropWhile (fun c => c ≠ '?') = path.data
    ∧ (∀ x, (path.data.dropWhile (fun c => c ≠ '?')).head? = some x → x = '?')
    ∧ (prepareRequest base_url ts method path).url = base_url ++ path
    ∧ prepareRequest base_url 1700000000000 "get" "/a/b?x=1"
      = { message := "1700000000000GET/a/b", timestampHeader := "1700000000000",
          url := base_url ++ "/a/b?x=1" } := by
  refine ⟨rfl, rfl, ?_, ?_, ?_, rfl, ?_⟩
  · intro hmem
    have hdata : ((prepareRequest base_url ts method path).message).data
        = (Nat.repr ts).data ++ ((pyUpper method).data ++ (pathWithoutQuery path).data) := by
      show (Nat.repr ts ++ pyUpper method ++ pathWithoutQuery path).data = _
      rw [String.data_append, String.data_append, List.append_assoc]
    rw [hdata] at hmem
    rcases List.mem_append.mp hmem with h1 | h1
    · exact repr_no_qmark ts h1
    · rcases List.mem_append.mp h1 with h2 | h2
      · rcases List.mem_map.mp h2 with ⟨c, hcmem, hcup⟩
        by_cases hcq : c = '?'
        · exact hm (hcq ▸ hcmem)
        · exact toUpper_ne_qmark c hcq hcup
      · have := List.mem_takeWhile_imp h2
        simp at this
  · show List.takeWhile (fun c => decide (c ≠ '?')) path.data
        ++ List.dropWhile (fun c => decide (c ≠ '?')) path.data = path.data
    exact List.takeWhile_append_dropWhile _ _
  · intro x hx
    have h := List.head?_dropWhile_not (fun c => decide (c ≠ '?')) path.data
    rw [hx] at h
    simpa using h
  · show PreparedRequest.mk _ _ _ = _
    rw [PreparedRequest.mk.injEq]
    refine ⟨by decide, by decide, rfl⟩

/-- Witness for `kalshi_signing` at the spec's concrete signing example. -/
theorem kalshi_signing_witness :
    prepareRequest "https://demo-api.kalshi.co" 1700000000000 "get" "/a/b?x=1"
      = { message := "1700000000000GET/a/b", timestampHeader := "1700000000000",
          url := "https://demo-api.kalshi.co" ++ "/a/b?x=1" }
    ∧ '?' ∉ ((prepareRequest "https://demo-api.kalshi.co" 1700000000000
        "get" "/a/b?x=1").message).data := by
  have h := kalshi_signing "https://demo-api.kalshi.co" "get" "/a/b?x=1" 1700000000000
    (by decide)
  exact ⟨h.2.2.2.2.2.2, h.2.2.1⟩

/-- C1 counterexample to the unrestricted claim: for the method string `"?"`
(the claim quantifies over every method string), the character `'?'` does
appear in the signed bytes. -/
theorem kalshi_signing_qmark_counterexample :
    '?' ∈ (signMessage 1700000000000 "?" "/a/b").data := by decide

/-! ### Retry policy (`KalshiClient._send_with_retries`, `_is_retryable_error`) -/

/-- Errors a send can raise: `KalshiHttpError` (non-2xx status),
`requests.RequestException` (transport), anything else. -/
inductive KErr where
  | http (status : Nat)
  | transport
  | other
deriving DecidableEq, Repr

/-- `_is_retryable_error`. -/
def isRetryableError : KErr → Bool
  | .http s => decide (s = 429 ∨ 500 ≤ s)
  | .transport => true
  | .other => false

/-- Retry tuning from `KalshiConfig`. -/
structure RetryConfig where
  max_attempt : Nat
  base_delay : ℚ
  backoff_multiplier : ℚ
  max_delay : ℚ
deriving DecidableEq, Repr

/-- Result of a `_send_with_retries` call: the returned value or the raised
error, with the number of send attempts consumed and the sleeps performed. -/
inductive RunResult (α : Type) where
  | ok (v : α) (calls : Nat) (sleeps : List ℚ)
  | raised (e : KErr) (calls : Nat) (sleeps : List ℚ)
  | noTrace
deriving DecidableEq, Repr

/-- `KalshiClient._send_with_retries`'s loop, starting from a given value of
the `attempt` counter.  `outcomes` lists the result of each successive
`_send_request` call, `elapses` the value of `time.monotonic() - start` at
each failure, and `jitters` the value sampled by `random.uniform` at each
failure. -/
def sendLoop {α : Type} (cfg : RetryConfig) :
    Nat → List (Except KErr α) → List ℚ → List ℚ → RunResult α
  | _, [], _, _ => .noTrace
  | _, (Except.ok v) :: _, _, _ => .ok v 1 []
  | attempt, (Except.error e) :: rest, elapses, jitters =>
    let attempt1 := attempt + 1
    if isRetryableError e = false then .raised e 1 []
    else if cfg.max_attempt ≤ attempt1 then .raised e 1 []
    else
      let delay := cfg.base_delay * cfg.backoff_multiplier ^ (attempt1 - 1)
        + jitters.headD 0
      if cfg.max_delay < elapses.headD 0 + delay then .raised e 1 []
      else
        match sendLoop cfg attempt1 rest elapses.tail jitters.tail with
        | .noTrace => .noTrace
        | .ok v n ss => .ok v (n + 1) (delay :: ss)
        | .raised e2 n ss => .raised e2 (n + 1) (delay :: ss)

/-- `_send_with_retries` starts with `attempt = 0`. -/
def sendWithRetries {α : Type} (cfg : RetryConfig) (outcomes : List (Except KErr α))
    (elapses jitters : List ℚ) : RunResult α :=
  sendLoop cfg 0 outcomes elapses jitters

/-- C2: an error is retryable iff it is a transport error or an HTTP error
with status 429 or ≥ 500; a non-retryable error is surfaced after exactly one
send attempt with no sleep; a retryable failure that brings the attempt
counter to `max_attempt` surfaces the error; otherwise the proposed delay is
`base_delay * backoff_multiplier ^ (attempt - 1)` plus the sampled jitter
(which, lying in `[0, 0.1 * delay]`, keeps the sleep within
`[delay, 1.1 * delay]`), and the error is surfaced without sleeping exactly
when the elapsed time plus that delay exceeds `max_delay`; else the loop
sleeps that delay and retries. -/
theorem retry_policy {α : Type} (cfg : RetryConfig) (attempt : Nat) (e : KErr)
    (rest : List (Except KErr α)) (elapses jitters : List ℚ) :
    (isRetryableError e = true ↔
       e = .transport ∨ ∃ s, e = .http s ∧ (s = 429 ∨ 500 ≤ s))
    ∧ (isRetryableError e = false →
        sendWithRetries cfg (.error e :: rest) elapses jitters = .raised e 1 [])
    ∧ (isRetryableError e = true → cfg.max_attempt ≤ attempt + 1 →
        sendLoop cfg attempt (.error e :: rest) elapses jitters = .raised e 1 [])
    ∧ (isRetryableError e = true → attempt + 1 < cfg.max_attempt →
        cfg.max_delay < elapses.headD 0
            + (cfg.base_delay * cfg.backoff_multiplier ^ attempt + jitters.headD 0) →
        sendLoop cfg attempt (.error e :: rest) elapses jitters = .raised e 1 [])
    ∧ (isRetryableError e = true → attempt + 1 < cfg.max_attempt →
        elapses.headD 0
            + (cfg.base_delay * cfg.backoff_multiplier ^ attempt + jitters.headD 0)
          ≤ cfg.max_delay →
        sendLoop cfg attempt (.error e :: rest) elapses jitters
          = (match sendLoop cfg (attempt + 1) rest elapses.tail jitters.tail with
             | .noTrace => .noTrace
             | .ok v n ss => .ok v (n + 1)
                 ((cfg.base_delay * cfg.backoff_multiplier ^ attempt + jitters.headD 0) :: ss)
             | .raised e2 n ss => .raised e2 (n + 1)
                 ((cfg.base_delay * cfg.backoff_multiplier ^ attempt + jitters.headD 0) :: ss)))
    ∧ (0 ≤ jitters.headD 0 →
        jitters.headD 0 ≤ cfg.base_delay * cfg.backoff_multiplier ^ attempt / 10 →
        cfg.base_delay * cfg.backoff_multiplier ^ attempt
            ≤ cfg.base_delay * cfg.backoff_multiplier ^ attempt + jitters.headD 0
        ∧ cfg.base_delay * cfg.backoff_multiplier ^ attempt + jitters.headD 0
            ≤ cfg.base_delay * cfg.backoff_multiplier ^ attempt * (11 / 10)) := by
  refine ⟨?_, ?_, ?_, ?_, ?_, ?_⟩
  · cases e with
    | http s => simp [isRetryableError]
    | transport => simp [isRetryableError]
    | other => simp [isRetryableError]
  · intro h
    simp [sendWithRetries, sendLoop, h]
  · intro h hmax
    simp [sendLoop, h, hmax]
  · intro h hmax hdelay
    simp only [List.headD_eq_head?_getD] at hdelay
    simp [sendLoop, h, Nat.not_le.mpr hmax, hdelay]
  · intro h hmax hdelay
    simp only [List.headD_eq_head?_getD] at hdelay
    simp [sendLoop, h, Nat.not_le.mpr hmax, not_lt.mpr hdelay]
  · intro h0 h1
    constructor
    · linarith
    · linarith

/-- Witness for `retry_policy`: a 400 response is not retryable and is
surfaced after one attempt with no sleep; a 500 response is retryable. -/
theorem retry_policy_witness :
    sendWithRetries (α := Unit) ⟨5, 1/2, 2, 30⟩ [.error (.http 400)] [] []
      = .raised (.http 400) 1 []
    ∧ isRetryableError (.http 500) = true := by
  constructor
  · exact (retry_policy (α := Unit) ⟨5, 1/2, 2, 30⟩ 0 (.http 400) [] [] []).2.1 (by decide)
  · exact (retry_policy (α := Unit) ⟨5, 1/2, 2, 30⟩ 0 (.http 500) [] [] []).1.mpr
      (Or.inr ⟨500, rfl, Or.inr le_rfl⟩)

/-! ### In-process buses (`src/trading/bus.py`)

`ExecutionEventBus` keeps its subscriber queues in a Python `set`;
`publish` iterates `list(self._subscribers)`, i.e. some enumeration of that
set.  Subscriber queues are identified here by their subscription index, the
subscription-order list is `subs`, and an enumeration of the set is any
permutation of it. -/

/-- The primitive effects a bus operation performs, in program order. -/
inductive BusEffect where
  | record
  | enqueue
  | deliver (q : Nat)
deriving DecidableEq, Repr

/-- `ExecutionCommandBus.put`: optional recorder step, then the queue put. -/
def commandPutTrace (recorderPresent : Bool) : List BusEffect :=
  (if recorderPresent then [BusEffect.record] else []) ++ [BusEffect.enqueue]

/-- `ExecutionEventBus.publish`: optional recorder step, then one put per
subscriber queue in set-enumeration order. -/
def publishTrace (recorderPresent : Bool) (enumOrder : List Nat) : List BusEffect :=
  (if recorderPresent then [BusEffect.record] else []) ++ enumOrder.map BusEffect.deliver

/-- The `(subscriber, event)` deliveries `publish` performs, in order. -/
def publishDeliveries (enumOrder : List Nat) (ev : ExecEvent) : List (Nat × ExecEvent) :=
  enumOrder.map (fun q => (q, ev))

/-- C4 counterexample: the subscriber set `{0, 1}` (subscribed in the order
`0` then `1`) admits the enumeration `[1, 0]`, under which the later
subscriber receives the event first — delivery order does not follow
subscription order. -/
theorem publish_subscription_order_counterexample :
    List.Perm [1, 0] [0, 1]
    ∧ publishDeliveries [1, 0] (ExecEvent.orderCanceled "kalshi" "V1" none)
        ≠ List.map (fun q => (q, ExecEvent.orderCanceled "kalshi" "V1" none)) [0, 1] := by
  constructor
  · decide
  · decide

/-- C4 (amended): `publish(ev)` delivers `ev`, and nothing else, exactly once
to every current subscriber, for whatever enumeration of the stored
subscriber set the iteration uses; the inter-subscriber delivery order is
that enumeration order and need not follow subscription order. -/
theorem publish_fanout (subs enumOrder : List Nat) (ev : ExecEvent)
    (hperm : List.Perm enumOrder subs) :
    (∀ q, q ∈ subs ↔ (q, ev) ∈ publishDeliveries enumOrder ev)
    ∧ (∀ q, ((publishDeliveries enumOrder ev).map Prod.fst).count q = subs.count q)
    ∧ (∀ qe ∈ publishDeliveries enumOrder ev, qe.2 = ev) := by
  have hinj : Function.Injective (fun q : Nat => (q, ev)) := by
    intro a b hab
    simpa using congrArg Prod.fst hab
  refine ⟨?_, ?_, ?_⟩
  · intro q
    rw [← hperm.mem_iff]
    constructor
    · intro hq
      exact List.mem_map.mpr ⟨q, hq, rfl⟩
    · intro hq
      rcases List.mem_map.mp hq with ⟨q', hq', heq⟩
      exact (hinj heq) ▸ hq'
  · intro q
    have hfst : (publishDeliveries enumOrder ev).map Prod.fst = enumOrder := by
      simp only [publishDeliveries, List.map_map]
      exact List.map_id enumOrder
    rw [hfst]
    exact hperm.count_eq q
  · intro qe hqe
    rcases List.mem_map.mp hqe with ⟨q', _, heq⟩
    rw [← heq]

/-- Witness for `publish_fanout` on the subscriber set `{0, 1}` enumerated in
reverse order. -/
theorem publish_fanout_witness :
    (0 ∈ [0, 1] ↔ ((0 : Nat), ExecEvent.orderCanceled "kalshi" "V1" none)
        ∈ publishDeliveries [1, 0] (ExecEvent.orderCanceled "kalshi" "V1" none))
    ∧ ((publishDeliveries [1, 0] (ExecEvent.orderCanceled "kalshi" "V1" none)).map
        Prod.fst).count 0 = [0, 1].count 0 := by
  have h := publish_fanout [0, 1] [1, 0] (ExecEvent.orderCanceled "kalshi" "V1" none)
    (by decide)
  exact ⟨h.1 0, h.2.1 0⟩

/-- C7: when a recorder is configured, the observability-record step strictly
precedes the queue put in `ExecutionCommandBus.put` and strictly precedes
every subscriber delivery in `ExecutionEventBus.publish`. -/
theorem recorder_precedes_delivery (enumOrder : List Nat) :
    (∀ i, (commandPutTrace true).get? i = some .enqueue →
       ∃ j, j < i ∧ (commandPutTrace true).get? j = some .record)
    ∧ (∀ i q, (publishTrace true enumOrder).get? i = some (.deliver q) →
       ∃ j, j < i ∧ (publishTrace true enumOrder).get? j = some .record) := by
  constructor
  · intro i hi
    match i with
    | 0 => simp [commandPutTrace] at hi
    | n + 1 => exact ⟨0, Nat.succ_pos n, rfl⟩
  · intro i q hi
    match i with
    | 0 => simp [publishTrace] at hi
    | n + 1 => exact ⟨0, Nat.succ_pos n, rfl⟩

/-- Witness for `recorder_precedes_delivery`: the enqueue in
`commandPutTrace` and the first delivery in `publishTrace` for one
subscriber both have the record step strictly before them. -/
theorem recorder_precedes_delivery_witness :
    (∃ j, j < 1 ∧ (commandPutTrace true).get? j = some BusEffect.record)
    ∧ (∃ j, j < 1 ∧ (publishTrace true [7]).get? j = some BusEffect.record) := by
  exact ⟨(recorder_precedes_delivery [7]).1 1 rfl,
         (recorder_precedes_delivery [7]).2 1 7 rfl⟩

/-! ### Query-string construction (`KalshiClient._build_query_string`) -/

/-- Scalar Python values that can appear inside a list/tuple parameter. -/
inductive QScalar where
  | sStr (s : String)
  | sInt (n : Int)
  | sBool (b : Bool)
deriving DecidableEq, Repr

/-- Python `str()` on a scalar (note `str(True) = "True"`). -/
def pyStr : QScalar → String
  | .sStr s => s
  | .sInt n => toString n
  | .sBool true => "True"
  | .sBool false => "False"

/-- A parameter value as dispatched by `_build_query_string`'s
`None` / `bool` / `list`-`tuple` / fallback-`str()` branches. -/
inductive QVal where
  | none
  | bool (b : Bool)
  | seq (xs : List QScalar)
  | str (s : String)
  | int (n : Int)
deriving DecidableEq, Repr

/-- The value string `_build_query_string` stores in `filtered` for one
parameter (`Option.none` means the key is skipped). -/
def renderParamValue : QVal → Option String
  | .none => Option.none
  | .bool b => some (if b then "true" else "false")
  | .seq xs => some (String.intercalate "," (xs.map pyStr))
  | .str s => some s
  | .int n => some (toString n)

/-- The `filtered` dict built by `_build_query_string`'s loop. -/
def buildFiltered (params : List (String × QVal)) : List (String × String) :=
  params.foldl (fun acc kv =>
    match renderParamValue kv.2 with
    | Option.none => acc
    | some s => dictInsert acc kv.1 s) []

/-- Uppercase hexadecimal digit, as used by `urllib.parse.quote`. -/
def hexUpperDigit (n : Nat) : Char :=
  if n < 10 then Char.ofNat (48 + n) else Char.ofNat (55 + n)

/-- UTF-8 encoding of a code point. -/
def utf8ByteList (n : Nat) : List Nat :=
  if n < 128 then [n]
  else if n < 2048 then [192 + n / 64, 128 + n % 64]
  else if n < 65536 then [224 + n / 4096, 128 + n / 64 % 64, 128 + n % 64]
  else [240 + n / 262144, 128 + n / 4096 % 64, 128 + n / 64 % 64, 128 + n % 64]

/-- `urllib.parse`'s always-safe characters (letters, digits, `_.-~`). -/
def isUrlSafeChar (c : Char) : Bool :=
  c.isAlphanum || c = '_' || c = '.' || c = '-' || c = '~'

def percentEncodeByte (b : Nat) : List Char :=
  ['%', hexUpperDigit (b / 16), hexUpperDigit (b % 16)]

/-- `urllib.parse.quote_plus` on one character. -/
def quotePlusChar (c : Char) : List Char :=
  if c = ' ' then ['+']
  else if isUrlSafeChar c then [c]
  else ((utf8ByteList c.toNat).map percentEncodeByte).flatten

/-- `urllib.parse.quote_plus`. -/
def quotePlus (s : String) : String := ⟨(s.data.map quotePlusChar).flatten⟩

/-- `urllib.parse.urlencode` with its default `quote_plus` quoting. -/
def urlencode (pairs : List (String × String)) : String :=
  String.intercalate "&" (pairs.map fun kv => quotePlus kv.1 ++ "=" ++ quotePlus kv.2)

/-- `KalshiClient._build_query_string`. -/
def buildQueryString (params : List (String × QVal)) : String :=
  if (buildFiltered params).isEmpty then "" else "?" ++ urlencode (buildFiltered params)

theorem dictInsert_fresh {α : Type} (d : List (String × α)) (k : String) (v : α)
    (h : k ∉ d.map Prod.fst) : dictInsert d k v = d ++ [(k, v)] := by
  induction d with
  | nil => rfl
  | cons hd tl ih =>
    obtain ⟨k₀, v₀⟩ := hd
    simp only [List.map_cons, List.mem_cons, not_or] at h
    have hne : ¬ k₀ = k := fun hc => h.1 hc.symm
    simp [dictInsert, hne, ih h.2]

theorem buildFiltered_loop (params : List (String × QVal)) :
    ∀ acc : List (String × String),
      (params.map Prod.fst).Nodup →
      (∀ k ∈ params.map Prod.fst, k ∉ acc.map Prod.fst) →
      params.foldl (fun acc kv =>
          match renderParamValue kv.2 with
          | Option.none => acc
          | some s => dictInsert acc kv.1 s) acc
        = acc ++ params.filterMap
            (fun kv => (renderParamValue kv.2).map (fun s => (kv.1, s))) := by
  induction params with
  | nil => intro acc _ _; simp
  | cons kv rest ih =>
    intro acc hnd hdisj
    obtain ⟨k, v⟩ := kv
    simp only [List.map_cons, List.nodup_cons] at hnd
    have hk : k ∉ acc.map Prod.fst := hdisj k (by simp)
    cases hrv : renderParamValue v with
    | none =>
      have := ih acc hnd.2 (fun k' hk' => hdisj k' (by simp [hk']))
      simpa [List.foldl_cons, hrv, List.filterMap_cons] using this
    | some s =>
      have hstep : dictInsert acc k s = acc ++ [(k, s)] := dictInsert_fresh acc k s hk
      have hdisj' : ∀ k' ∈ rest.map Prod.fst, k' ∉ (acc ++ [(k, s)]).map Prod.fst := by
        intro k' hk'
        simp only [List.map_append, List.mem_append]
        rintro (hc | hc)
        · exact hdisj k' (by simp [hk']) hc
        · simp only [List.map_cons, List.map_nil, List.mem_singleton] at hc
          exact hnd.1 (hc ▸ hk')
      have := ih (acc ++ [(k, s)]) hnd.2 hdisj'
      simpa [List.foldl_cons, hrv, hstep, List.filterMap_cons] using this

theorem map_fst_filterMapRender (params : List (String × QVal)) :
    (params.filterMap
        (fun kv => (renderParamValue kv.2).map (fun s => (kv.1, s)))).map Prod.fst
      = (params.filter (fun kv => (renderParamValue kv.2).isSome)).map Prod.fst := by
  induction params with
  | nil => rfl
  | cons kv rest ih =>
    cases h : renderParamValue kv.2 with
    | none => simp [List.filterMap_cons, List.filter_cons, h, ih]
    | some s => simp [List.filterMap_cons, List.filter_cons, h, ih]

theorem renderParamValue_eq_none_iff (v : QVal) :
    renderParamValue v = Option.none ↔ v = QVal.none := by
  cases v <;> simp [renderParamValue]

/-- C5: `_build_query_string` skips keys whose value is `None`; booleans
render as `"true"`/`"false"`; lists/tuples render as the comma-join of their
elements' `str()`; the result is empty iff every value is `None`; otherwise
it starts with `'?'` and is `"?" + urlencode(filtered)` where `filtered`
keeps surviving keys in the input dict's insertion order. -/
theorem build_query_spec (params : List (String × QVal))
    (hnd : (params.map Prod.fst).Nodup) :
    buildFiltered params
      = params.filterMap (fun kv => (renderParamValue kv.2).map (fun s => (kv.1, s)))
    ∧ (∀ k, (k, QVal.none) ∈ params → k ∉ (buildFiltered params).map Prod.fst)
    ∧ (∀ b, renderParamValue (QVal.bool b) = some (if b then "true" else "false"))
    ∧ (∀ xs, renderParamValue (QVal.seq xs)
        = some (String.intercalate "," (xs.map pyStr)))
    ∧ (buildQueryString params = "" ↔ ∀ kv ∈ params, kv.2 = QVal.none)
    ∧ (buildFiltered params ≠ [] →
        (buildQueryString params).data.head? = some '?'
        ∧ buildQueryString params = "?" ++ urlencode (buildFiltered params))
    ∧ (buildFiltered params).map Prod.fst
        = (params.filter (fun kv => (renderParamValue kv.2).isSome)).map Prod.fst := by
  have hbf : buildFiltered params
      = params.filterMap (fun kv => (renderParamValue kv.2).map (fun s => (kv.1, s))) := by
    simpa using buildFiltered_loop params [] hnd (by simp)
  have hkeys : (buildFiltered params).map Prod.fst
      = (params.filter (fun kv => (renderParamValue kv.2).isSome)).map Prod.fst := by
    rw [hbf]; exact map_fst_filterMapRender params
  have hempty : buildFiltered params = [] ↔ ∀ kv ∈ params, kv.2 = QVal.none := by
    rw [hbf, List.filterMap_eq_nil_iff]
    constructor
    · intro h kv hkv
      have hmapnone := h kv hkv
      cases hrv : renderParamValue kv.2 with
      | none => exact (renderParamValue_eq_none_iff kv.2).mp hrv
      | some s => rw [hrv] at hmapnone; simp at hmapnone
    · intro h kv hkv
      simp [h kv hkv, renderParamValue]
  refine ⟨hbf, ?_, fun b => rfl, fun xs => rfl, ?_, ?_, hkeys⟩
  · intro k hkmem hkfil
    rw [hkeys] at hkfil
    rcases List.mem_map.mp hkfil with ⟨kv', hkv', hfst⟩
    have hkv'mem := List.mem_of_mem_filter hkv'
    have hsome := List.of_mem_filter hkv'
    have hne : kv' ≠ (k, QVal.none) := by
      intro hc
      rw [hc] at hsome
      simp [renderParamValue] at hsome
    have heqkv : kv' = (k, QVal.none) :=
      List.inj_on_of_nodup_map hnd hkv'mem hkmem (by simpa using hfst)
    exact hne heqkv
  · have hq : buildQueryString params = "" ↔ buildFiltered params = [] := by
      by_cases hbe : (buildFiltered params).isEmpty
      · simp [buildQueryString, hbe, List.isEmpty_iff.mp hbe]
      · rw [buildQueryString, if_neg hbe]
        constructor
        · intro hcontr
          exfalso
          have hdata : ("?" ++ urlencode (buildFiltered params)).data = ([] : List Char) := by
            rw [hcontr]
          rw [String.data_append] at hdata
          simp at hdata
        · intro hcontr
          exact absurd (List.isEmpty_iff.mpr hcontr) hbe
    exact hq.trans hempty
  · intro hne
    have hbe : ¬ (buildFiltered params).isEmpty := by
      simpa [List.isEmpty_iff] using hne
    constructor
    · rw [buildQueryString, if_neg hbe, String.data_append]
      rfl
    · rw [buildQueryString, if_neg hbe]

/-- Witness for `build_query_spec`: a dict exercising `None` omission,
boolean, sequence, and space/comma encoding. -/
theorem build_query_spec_witness :
    (buildQueryString [("a", QVal.none), ("b", QVal.bool true),
        ("c", QVal.seq [QScalar.sInt 1, QScalar.sInt 2]), ("d", QVal.str "x y")]).data.head?
      = some '?'
    ∧ buildQueryString [("a", QVal.none), ("b", QVal.bool true),
        ("c", QVal.seq [QScalar.sInt 1, QScalar.sInt 2]), ("d", QVal.str "x y")]
      = "?b=true&c=1%2C2&d=x+y" := by
  have h := build_query_spec [("a", QVal.none), ("b", QVal.bool true),
      ("c", QVal.seq [QScalar.sInt 1, QScalar.sInt 2]), ("d", QVal.str "x y")] (by decide)
  exact ⟨(h.2.2.2.2.2.1 (by decide)).1, by decide⟩

/-! ### Observability recorder (`src/observability/recorder.py`)

A message is modelled by its structural dump (`model_dump()`), an
association list of field names to values; attribute access on pydantic
messages coincides with lookup in the dump.  Wall-clock instants are `Nat`. -/

/-- A Python value as it appears in a message dump. -/
inductive Val where
  | vStr (s : String)
  | vInt (n : Int)
  | vBool (b : Bool)
  | vRat (q : ℚ)
  | vNone
  | vTime (t : Nat)
  | vDict (fields : List (String × Val))

/-- The secret-like keys `_extract_summary` redacts. -/
def secretKeys : List String :=
  ["api_key", "private_key", "secret", "token", "password"]

/-- The request-field allow-list kept by `_extract_summary`. -/
def allowedRequestKeys : List String :=
  ["trade_id", "venue", "ticker", "side", "action", "count", "order_type",
   "limit_price_dollars", "client_order_id"]

/-- The redaction loop `for key in [...]: if key in data: data[key] = ...`,
generalised over the key list. -/
def redactFold (keys : List String) (data : List (String × Val)) : List (String × Val) :=
  keys.foldl (fun d key =>
    if (dictLookup d key).isSome then dictInsert d key (Val.vStr "[REDACTED]") else d) data

def redactSecrets (data : List (String × Val)) : List (String × Val) :=
  redactFold secretKeys data

/-- `{k: request.get(k) for k in [...] if k in request}` (a Python dict
comprehension iterates the allow-list in order). -/
def projectRequest (rf : List (String × Val)) : List (String × Val) :=
  allowedRequestKeys.filterMap (fun k => (dictLookup rf k).map (fun v => (k, v)))

/-- `_extract_summary` on a message dump: redact the secret keys in place,
pop the `"request"` entry, and when it was a dict with a nonempty allow-list
projection re-add the projection under `"request"` (at the end, as a fresh
dict insertion). -/
def extractSummary (data : List (String × Val)) : List (String × Val) :=
  match dictLookup (redactSecrets data) "request" with
  | some (Val.vDict rf) =>
    if (projectRequest rf).isEmpty then dictErase (redactSecrets data) "request"
    else dictErase (redactSecrets data) "request"
      ++ [("request", Val.vDict (projectRequest rf))]
  | _ => dictErase (redactSecrets data) "request"

/-- A message: its class name plus its structural dump. -/
structure PyMessage where
  className : String
  dump : List (String × Val)

/-- `_extract_event_type`. -/
def extractEventType (m : PyMessage) : String :=
  match dictLookup m.dump "type" with
  | some (Val.vStr t) => if t = "" then m.className else t
  | _ => m.className

/-- The nested-request half of `_extract_trade_id`. -/
def extractTradeIdFromRequest (m : PyMessage) : Option String :=
  match dictLookup m.dump "request" with
  | some (Val.vDict rf) =>
    match dictLookup rf "trade_id" with
    | some (Val.vStr t) => if t = "" then Option.none else some t
    | _ => Option.none
  | _ => Option.none

/-- `_extract_trade_id`: direct `trade_id` if a nonempty string, else the
nested `request.trade_id`. -/
def extractTradeId (m : PyMessage) : Option String :=
  match dictLookup m.dump "trade_id" with
  | some (Val.vStr t) => if t = "" then extractTradeIdFromRequest m else some t
  | _ => extractTradeIdFromRequest m

/-- `_extract_venue_order_id`. -/
def extractVenueOrderId (m : PyMessage) : Option String :=
  match dictLookup m.dump "venue_order_id" with
  | some (Val.vStr t) => if t = "" then Option.none else some t
  | _ => Option.none

/-- `_extract_occurred_at`: the message's `ts` if present, else now. -/
def extractOccurredAt (m : PyMessage) (now : Nat) : Nat :=
  match dictLookup m.dump "ts" with
  | some (Val.vTime t) => t
  | _ => now

/-- Python's `a or b` on optional strings (`None` and `""` are falsy). -/
def pyOrStr (a b : Option String) : Option String :=
  match a with
  | some s => if s = "" then b else some s
  | Option.none => b

/-- `ObservabilityRecord`. -/
structure ObsRecord where
  kind : String
  event_type : String
  stage : String
  correlation_id : Option String
  trade_id : Option String
  venue_order_id : Option String
  occurred_at : Nat
  logged_at : Nat
  summary : List (String × Val)

/-- The record `ObservabilityRecorder.record_message` constructs. -/
def mkRecord (m : PyMessage) (kind stage : String) (correlationId : Option String)
    (now : Nat) : ObsRecord :=
  { kind := kind
    event_type := extractEventType m
    stage := stage
    correlation_id := pyOrStr correlationId (pyOrStr (extractTradeId m) (extractVenueOrderId m))
    trade_id := extractTradeId m
    venue_order_id := extractVenueOrderId m
    occurred_at := extractOccurredAt m now
    logged_at := now
    summary := extractSummary m.dump }

/-- The recorder's mutable state: closed flag, lazily-started worker flag,
the bounded record queue, and the degradation counters. -/
structure RecorderState where
  closed : Bool
  workerStarted : Bool
  queue : List ObsRecord
  maxQueueSize : Nat
  writeFailures : Nat
  firstFailureAt : Option Nat
  lastFailureAt : Option Nat

/-- `ObservabilityRecorder.record_message`: early-return when closed; start
the worker; build the record; `put_nowait`, dropping the record and bumping
the failure counters when the bounded queue is full. -/
def recordMessage (st : RecorderState) (m : PyMessage) (kind stage : String)
    (correlationId : Option String) (now : Nat) : RecorderState :=
  if st.closed then st
  else
    let st1 := { st with workerStarted := true }
    let record := mkRecord m kind stage correlationId now
    if 0 < st1.maxQueueSize ∧ st1.maxQueueSize ≤ st1.queue.length then
      { st1 with
        writeFailures := st1.writeFailures + 1
        firstFailureAt := some (st1.firstFailureAt.getD now)
        lastFailureAt := some now }
    else
      { st1 with queue := st1.queue ++ [record] }

/-! Dictionary lemmas for the summary construction. -/

theorem dictLookup_append_right {α : Type} (d e : List (String × α)) (k : String)
    (h : dictLookup d k = Option.none) : dictLookup (d ++ e) k = dictLookup e k := by
  induction d with
  | nil => rfl
  | cons hd tl ih =>
    obtain ⟨k₀, v₀⟩ := hd
    by_cases h₀ : k₀ = k
    · simp [dictLookup, h₀] at h
    · simp only [dictLookup, if_neg h₀] at h
      simpa [dictLookup, h₀] using ih h

theorem dictLookup_append_left {α : Type} (d e : List (String × α)) (k : String) (v : α)
    (h : dictLookup d k = some v) : dictLookup (d ++ e) k = some v := by
  induction d with
  | nil => simp [dictLookup] at h
  | cons hd tl ih =>
    obtain ⟨k₀, v₀⟩ := hd
    by_cases h₀ : k₀ = k
    · simp only [dictLookup, if_pos h₀] at h
      simp [dictLookup, h₀, h]
    · simp only [dictLookup, if_neg h₀] at h
      simpa [dictLookup, h₀] using ih h

theorem dictLookup_append_single_ne {α : Type} (d : List (String × α)) (k₀ k : String)
    (v : α) (h : k ≠ k₀) : dictLookup (d ++ [(k₀, v)]) k = dictLookup d k := by
  have hne : ¬ k₀ = k := fun hc => h hc.symm
  cases hd : dictLookup d k with
  | none =>
    rw [dictLookup_append_right d _ k hd]
    simp [dictLookup, hne, hd]
  | some w => exact dictLookup_append_left d _ k w hd

theorem redactFold_cons (key : String) (rest : List String) (d : List (String × Val)) :
    redactFold (key :: rest) d
      = redactFold rest
          (if (dictLookup d key).isSome then dictInsert d key (Val.vStr "[REDACTED]")
           else d) := rfl

theorem dictLookup_redactFold_notmem :
    ∀ (keys : List String) (d : List (String × Val)) (k : String), k ∉ keys →
      dictLookup (redactFold keys d) k = dictLookup d k := by
  intro keys
  induction keys with
  | nil => intro d k _; rfl
  | cons key rest ih =>
    intro d k hk
    simp only [List.mem_cons, not_or] at hk
    rw [redactFold_cons]
    by_cases h : (dictLookup d key).isSome
    · rw [if_pos h, ih _ k hk.2]
      exact dictLookup_dictInsert_ne d key k _ hk.1
    · rw [if_neg h, ih _ k hk.2]

theorem map_fst_redactFold :
    ∀ (keys : List String) (d : List (String × Val)),
      (redactFold keys d).map Prod.fst = d.map Prod.fst := by
  intro keys
  induction keys with
  | nil => intro d; rfl
  | cons key rest ih =>
    intro d
    rw [redactFold_cons]
    by_cases h : (dictLookup d key).isSome
    · rw [if_pos h, ih, map_fst_dictInsert_of_isSome d key _ h]
    · rw [if_neg h, ih]

theorem dictLookup_redactFold_mem :
    ∀ (keys : List String) (d : List (String × Val)) (k : String), keys.Nodup →
      k ∈ keys → (dictLookup d k).isSome →
      dictLookup (redactFold keys d) k = some (Val.vStr "[REDACTED]") := by
  intro keys
  induction keys with
  | nil => intro d k _ hk; simp at hk
  | cons key rest ih =>
    intro d k hnd hk hsome
    simp only [List.nodup_cons] at hnd
    rw [redactFold_cons]
    rcases List.mem_cons.mp hk with rfl | hkrest
    · rw [if_pos hsome, dictLookup_redactFold_notmem rest _ k hnd.1]
      exact dictLookup_dictInsert_self d k _
    · have hkne : k ≠ key := by
        intro hc
        subst hc
        exact absurd hkrest hnd.1
      by_cases h : (dictLookup d key).isSome
      · rw [if_pos h]
        refine ih _ k hnd.2 hkrest ?_
        rw [dictLookup_dictInsert_ne d key k _ hkne]
        exact hsome
      · rw [if_neg h]
        exact ih _ k hnd.2 hkrest hsome

theorem dictLookup_filterMapProj_notmem (rf : List (String × Val)) :
    ∀ (keys : List String) (k : String), k ∉ keys →
      dictLookup (keys.filterMap (fun k' => (dictLookup rf k').map (fun v => (k', v)))) k
        = Option.none := by
  intro keys
  induction keys with
  | nil => intro k _; rfl
  | cons key rest ih =>
    intro k hk
    simp only [List.mem_cons, not_or] at hk
    cases h : dictLookup rf key with
    | none => simpa [List.filterMap_cons, h] using ih k hk.2
    | some v =>
      have hne : ¬ key = k := fun hc => hk.1 hc.symm
      simp only [List.filterMap_cons, h, Option.map_some']
      simpa [dictLookup, hne] using ih k hk.2

theorem dictLookup_filterMapProj_mem (rf : List (String × Val)) :
    ∀ (keys : List String) (k : String), keys.Nodup → k ∈ keys →
      dictLookup (keys.filterMap (fun k' => (dictLookup rf k').map (fun v => (k', v)))) k
        = dictLookup rf k := by
  intro keys
  induction keys with
  | nil => intro k _ hk; simp at hk
  | cons key rest ih =>
    intro k hnd hk
    simp only [List.nodup_cons] at hnd
    rcases List.mem_cons.mp hk with rfl | hkrest
    · cases h : dictLookup rf k with
      | none =>
        simp only [List.filterMap_cons, h, Option.map_none']
        exact dictLookup_filterMapProj_notmem rf rest k hnd.1
      | some v => simp [List.filterMap_cons, h, dictLookup]
    · have hkne : ¬ key = k := by
        intro hc
        subst hc
        exact absurd hkrest hnd.1
      cases h : dictLookup rf key with
      | none => simpa [List.filterMap_cons, h] using ih k hnd.2 hkrest
      | some v =>
        simp only [List.filterMap_cons, h, Option.map_some']
        simpa [dictLookup, hkne] using ih k hnd.2 hkrest

theorem dictLookup_extractSummary_preserved (d : List (String × Val)) (k : String)
    (hk1 : k ∉ secretKeys) (hk2 : k ≠ "request") :
    dictLookup (extractSummary d) k = dictLookup d k := by
  have h1 : dictLookup (redactSecrets d) k = dictLookup d k :=
    dictLookup_redactFold_notmem secretKeys d k hk1
  have h2 : dictLookup (dictErase (redactSecrets d) "request") k
      = dictLookup (redactSecrets d) k :=
    dictLookup_dictErase_ne _ "request" k hk2
  unfold extractSummary
  split
  · split
    · rw [h2, h1]
    · rw [dictLookup_append_single_ne _ _ _ _ hk2, h2, h1]
  · rw [h2, h1]

theorem dictLookup_extractSummary_secret (d : List (String × Val)) (k : String)
    (hk : k ∈ secretKeys) (hsome : (dictLookup d k).isSome) :
    dictLookup (extractSummary d) k = some (Val.vStr "[REDACTED]") := by
  have hkr : k ≠ "request" := by
    simp only [secretKeys, List.mem_cons, List.not_mem_nil, or_false] at hk
    rcases hk with rfl | rfl | rfl | rfl | rfl <;> decide
  have h1 : dictLookup (redactSecrets d) k = some (Val.vStr "[REDACTED]") :=
    dictLookup_redactFold_mem secretKeys d k (by decide) hk hsome
  have h2 : dictLookup (dictErase (redactSecrets d) "request") k
      = dictLookup (redactSecrets d) k :=
    dictLookup_dictErase_ne _ "request" k hkr
  unfold extractSummary
  split
  · split
    · rw [h2, h1]
    · rw [dictLookup_append_single_ne _ _ _ _ hkr, h2, h1]
  · rw [h2, h1]

theorem dictLookup_extractSummary_request (d : List (String × Val))
    (rf : List (String × Val)) (hnd : (d.map Prod.fst).Nodup)
    (hreq : dictLookup d "request" = some (Val.vDict rf)) :
    dictLookup (extractSummary d) "request"
      = (if (projectRequest rf).isEmpty then Option.none
         else some (Val.vDict (projectRequest rf))) := by
  have hreqns : ("request" : String) ∉ secretKeys := by decide
  have h1 : dictLookup (redactSecrets d) "request" = some (Val.vDict rf) := by
    rw [redactSecrets, dictLookup_redactFold_notmem secretKeys d _ hreqns]
    exact hreq
  have hnd1 : ((redactSecrets d).map Prod.fst).Nodup := by
    rw [redactSecrets, map_fst_redactFold]
    exact hnd
  have h2 : dictLookup (dictErase (redactSecrets d) "request") "request" = Option.none :=
    dictLookup_dictErase_self _ _ hnd1
  unfold extractSummary
  split
  · next rf' heq =>
    rw [h1] at heq
    injection heq with heq'
    injection heq' with heq''
    subst heq''
    by_cases hsel : (projectRequest rf).isEmpty
    · rw [if_pos hsel, if_pos hsel]
      exact h2
    · rw [if_neg hsel, if_neg hsel]
      rw [dictLookup_append_right _ _ _ h2]
      simp [dictLookup]
  · next x hne =>
    exact absurd h1 (fun hc => hne rf hc)

theorem extractTradeIdFromRequest_ne_empty (m : PyMessage) (t : String)
    (h : extractTradeIdFromRequest m = some t) : t ≠ "" := by
  unfold extractTradeIdFromRequest at h
  split at h
  · split at h
    · split at h
      · exact absurd h (by simp)
      · next hne => injection h with h'; exact h' ▸ hne
    · exact absurd h (by simp)
  · exact absurd h (by simp)

theorem extractTradeId_ne_empty (m : PyMessage) (t : String)
    (h : extractTradeId m = some t) : t ≠ "" := by
  unfold extractTradeId at h
  split at h
  · split at h
    · exact extractTradeIdFromRequest_ne_empty m t h
    · next hne => injection h with h'; exact h' ▸ hne
  · exact extractTradeIdFromRequest_ne_empty m t h

/-- C8: a record's summary is the message dump with every present secret key
(`api_key`, `private_key`, `secret`, `token`, `password`) replaced by
`"[REDACTED]"`, every other non-`request` key untouched, and a nested
request dict projected to exactly the allow-list keys (absent allow-list
keys skipped, every non-allow-list key such as `"extra"` dropped; the
projection vanishes when empty); the record's correlation id is the explicit
argument when given, else the message's trade id when present, else its
venue order id. -/
theorem observability_record_spec (m : PyMessage) (kind stage : String)
    (correlationId : Option String) (now : Nat) (rf : List (String × Val))
    (hnd : (m.dump.map Prod.fst).Nodup) :
    (mkRecord m kind stage correlationId now).summary = extractSummary m.dump
    ∧ (∀ k ∈ secretKeys, (dictLookup m.dump k).isSome →
        dictLookup (extractSummary m.dump) k = some (Val.vStr "[REDACTED]"))
    ∧ (∀ k, k ∉ secretKeys → k ≠ "request" →
        dictLookup (extractSummary m.dump) k = dictLookup m.dump k)
    ∧ (dictLookup m.dump "request" = some (Val.vDict rf) →
        dictLookup (extractSummary m.dump) "request"
          = (if (projectRequest rf).isEmpty then Option.none
             else some (Val.vDict (projectRequest rf)))
        ∧ (∀ k ∈ allowedRequestKeys, dictLookup (projectRequest rf) k = dictLookup rf k)
        ∧ (∀ k, k ∉ allowedRequestKeys → dictLookup (projectRequest rf) k = Option.none))
    ∧ (∀ c, correlationId = some c → c ≠ "" →
        (mkRecord m kind stage correlationId now).correlation_id = some c)
    ∧ (correlationId = Option.none → ∀ t, extractTradeId m = some t →
        (mkRecord m kind stage correlationId now).correlation_id = some t)
    ∧ (correlationId = Option.none → extractTradeId m = Option.none →
        (mkRecord m kind stage correlationId now).correlation_id
          = extractVenueOrderId m) := by
  refine ⟨rfl, ?_, ?_, ?_, ?_, ?_, ?_⟩
  · intro k hk hsome
    exact dictLookup_extractSummary_secret m.dump k hk hsome
  · intro k hk1 hk2
    exact dictLookup_extractSummary_preserved m.dump k hk1 hk2
  · intro hreq
    refine ⟨dictLookup_extractSummary_request m.dump rf hnd hreq, ?_, ?_⟩
    · intro k hk
      exact dictLookup_filterMapProj_mem rf allowedRequestKeys k (by decide) hk
    · intro k hk
      exact dictLookup_filterMapProj_notmem rf allowedRequestKeys k hk
  · intro c hc hcne
    simp [mkRecord, pyOrStr, hc, hcne]
  · intro hc t ht
    have htne := extractTradeId_ne_empty m t ht
    simp [mkRecord, pyOrStr, hc, ht, htne]
  · intro hc ht
    simp [mkRecord, pyOrStr, hc, ht]

/-- Witness for `observability_record_spec` at the spec's redaction example:
the dump `{api_key: "secret", request: {trade_id: "t", ticker: "ABC",
side: "yes", action: "buy", count: 1, order_type: "limit",
limit_price_dollars: 0.10, client_order_id: "t", extra: "drop"}}`. -/
theorem observability_record_spec_witness :
    dictLookup (extractSummary [("api_key", Val.vStr "secret"),
        ("request", Val.vDict [("trade_id", Val.vStr "t"), ("ticker", Val.vStr "ABC"),
          ("side", Val.vStr "yes"), ("action", Val.vStr "buy"), ("count", Val.vInt 1),
          ("order_type", Val.vStr "limit"), ("limit_price_dollars", Val.vRat (1/10)),
          ("client_order_id", Val.vStr "t"), ("extra", Val.vStr "drop")])]) "api_key"
      = some (Val.vStr "[REDACTED]")
    ∧ dictLookup (projectRequest [("trade_id", Val.vStr "t"), ("ticker", Val.vStr "ABC"),
          ("side", Val.vStr "yes"), ("action", Val.vStr "buy"), ("count", Val.vInt 1),
          ("order_type", Val.vStr "limit"), ("limit_price_dollars", Val.vRat (1/10)),
          ("client_order_id", Val.vStr "t"), ("extra", Val.vStr "drop")]) "extra"
      = Option.none
    ∧ (mkRecord ⟨"dict", [("api_key", Val.vStr "secret"),
        ("request", Val.vDict [("trade_id", Val.vStr "t"), ("ticker", Val.vStr "ABC"),
          ("side", Val.vStr "yes"), ("action", Val.vStr "buy"), ("count", Val.vInt 1),
          ("order_type", Val.vStr "limit"), ("limit_price_dollars", Val.vRat (1/10)),
          ("client_order_id", Val.vStr "t"), ("extra", Val.vStr "drop")])]⟩
        "command" "portfolio_manager" Option.none 0).correlation_id = some "t" := by
  have h := observability_record_spec ⟨"dict", [("api_key", Val.vStr "secret"),
      ("request", Val.vDict [("trade_id", Val.vStr "t"), ("ticker", Val.vStr "ABC"),
        ("side", Val.vStr "yes"), ("action", Val.vStr "buy"), ("count", Val.vInt 1),
        ("order_type", Val.vStr "limit"), ("limit_price_dollars", Val.vRat (1/10)),
        ("client_order_id", Val.vStr "t"), ("extra", Val.vStr "drop")])]⟩
    "command" "portfolio_manager" Option.none 0
    [("trade_id", Val.vStr "t"), ("ticker", Val.vStr "ABC"),
      ("side", Val.vStr "yes"), ("action", Val.vStr "buy"), ("count", Val.vInt 1),
      ("order_type", Val.vStr "limit"), ("limit_price_dollars", Val.vRat (1/10)),
      ("client_order_id", Val.vStr "t"), ("extra", Val.vStr "drop")]
    (by decide)
  refine ⟨h.2.1 "api_key" (by decide) (by rfl), (h.2.2.2.1 rfl).2.2 "extra" (by decide), ?_⟩
  exact h.2.2.2.2.2.1 rfl "t" rfl

/-- C10: `record_message` on a closed recorder is a no-op: the state is
returned unchanged — nothing is enqueued, the worker flag is untouched, and
the failure counters and timestamps keep their values. -/
theorem record_message_after_close (st : RecorderState) (m : PyMessage)
    (kind stage : String) (correlationId : Option String) (now : Nat)
    (hclosed : st.closed = true) :
    recordMessage st m kind stage correlationId now = st
    ∧ (recordMessage st m kind stage correlationId now).queue = st.queue
    ∧ (recordMessage st m kind stage correlationId now).workerStarted = st.workerStarted
    ∧ (recordMessage st m kind stage correlationId now).writeFailures = st.writeFailures
    ∧ (recordMessage st m kind stage correlationId now).firstFailureAt = st.firstFailureAt
    ∧ (recordMessage st m kind stage correlationId now).lastFailureAt = st.lastFailureAt := by
  have h : recordMessage st m kind stage correlationId now = st := by
    simp [recordMessage, hclosed]
  exact ⟨h, by rw [h], by rw [h], by rw [h], by rw [h], by rw [h]⟩

/-- Witness for `record_message_after_close` on a concrete closed recorder. -/
theorem record_message_after_close_witness :
    recordMessage ⟨true, false, [], 10000, 0, Option.none, Option.none⟩
        ⟨"SubmitOrder", []⟩ "command" "execution_command_bus" Option.none 5
      = ⟨true, false, [], 10000, 0, Option.none, Option.none⟩ :=
  (record_message_after_close ⟨true, false, [], 10000, 0, Option.none, Option.none⟩
    ⟨"SubmitOrder", []⟩ "command" "execution_command_bus" Option.none 5 rfl).1

end PTF
